import Mathlib

/-!
Verification development for the OCR PDF search system.

The repository ships the React/TypeScript frontend (`frontend/src/api.ts`,
`frontend/src/components/*`) together with documentation of the backend
ingestion pipeline (README, spec).  The data shapes below are translated
from the TypeScript interfaces in `frontend/src/api.ts`; the backend
operations (scanner, scan-job tracker, search endpoints), whose Python
sources are not part of this snapshot, are modelled from the spec and are
marked as such in their doc comments.
-/

/-! ## Data shapes from frontend/src/api.ts -/

/-- Status of a scan job, the closed set from the TypeScript union type
`status: 'running' | 'completed' | 'failed'` in `ScanJobStatus`. -/
inductive ScanStatus where
  | running
  | completed
  | failed
deriving DecidableEq, Repr

/-- The `FolderSettings` interface of frontend/src/api.ts. -/
structure FolderSettings where
  folder_path : String
  include_subfolders : Bool
  auto_ingest : Bool
deriving DecidableEq, Repr

/-- The `ScanJobStatus` interface of frontend/src/api.ts: the record shape
returned by GET /scan/job_id.  Nullable fields become Option. -/
structure ScanJobStatus where
  job_id : String
  scan_path : String
  include_subfolders : Bool
  started_at : String
  completed_at : Option String
  status : ScanStatus
  new_files : Option Nat
  skipped_files : Option Nat
  error_count : Option Nat
  errors : Option (List String)
deriving DecidableEq, Repr

/-- The `SearchResult` interface of frontend/src/api.ts.  The numeric
`score` field is only ever compared (ranking), never computed with, so it
is modelled by an integer. -/
structure SearchResult where
  document_id : Nat
  filename : String
  page_no : Nat
  snippet : String
  score : Int
  chunk_id : Option Nat
deriving DecidableEq, Repr

/-- The `FullTextSearchResponse` interface of frontend/src/api.ts. -/
structure FullTextSearchResponse where
  query : String
  total_results : Nat
  page : Nat
  page_size : Nat
  results : List SearchResult
deriving DecidableEq, Repr

/-- The `SemanticSearchResponse` interface of frontend/src/api.ts: it has
exactly the two fields `query` and `results`, and in particular no
total-count field. -/
structure SemanticSearchResponse where
  query : String
  results : List SearchResult
deriving DecidableEq, Repr

/-! ## Spec-modelled backend: scan job tracker -/

/-- Error taxonomy of spec section 7 (the cases the formalised claims
touch). -/
inductive APIError where
  | notFound
  | validationError
deriving DecidableEq, Repr

/-- Modelled from the spec: the Scan Job Tracker state (backend/app is not
in the repository snapshot).  It exclusively owns ScanJob records, keyed
by the caller-opaque job id. -/
abbrev Tracker : Type := List (String × ScanJobStatus)

/-- Modelled from the spec: a job id counts as issued exactly when the
tracker holds a record for it. -/
def issuedIds (t : Tracker) : List String := t.map Prod.fst

/-- Modelled from the spec: `getStatus(jobId) → ScanJob`, fails with
NotFound if the id is unknown (spec section 4.4). -/
def getStatus (t : Tracker) (jobId : String) : Except APIError ScanJobStatus :=
  match t.lookup jobId with
  | some j => Except.ok j
  | none => Except.error APIError.notFound

theorem lookup_isSome_of_mem_keys {t : Tracker} {id : String}
    (h : id ∈ issuedIds t) : (t.lookup id).isSome := by
  rw [List.lookup_isSome_iff]
  simp only [issuedIds, List.mem_map] at h
  obtain ⟨p, hp, hid⟩ := h
  exact ⟨p, hp, by simp [hid]⟩

theorem lookup_eq_none_of_not_mem_keys {t : Tracker} {id : String}
    (h : id ∉ issuedIds t) : t.lookup id = none := by
  rw [List.lookup_eq_none_iff]
  intro p hp
  simp only [issuedIds, List.mem_map] at h
  simp only [bne_iff_ne, ne_eq]
  intro hk
  exact h ⟨p, hp, hk.symm⟩

/-- C3: polling the scan-status operation with a job id that was never
issued fails with NotFound instead of returning a status record. -/
theorem C3_unknown_job_id_not_found (t : Tracker) (jobId : String)
    (h : jobId ∉ issuedIds t) :
    getStatus t jobId = Except.error APIError.notFound := by
  unfold getStatus
  rw [lookup_eq_none_of_not_mem_keys h]

theorem C3_unknown_job_id_not_found_witness :
    "ghost-job" ∉ issuedIds ([] : Tracker) ∧
      getStatus ([] : Tracker) "ghost-job" = Except.error APIError.notFound := by
  refine ⟨by simp [issuedIds], C3_unknown_job_id_not_found [] "ghost-job" (by simp [issuedIds])⟩

/-- C5: for every issued job id the scan-status operation returns a record
of the `ScanJobStatus` shape: its status lies in the closed set
running/completed/failed, and the record is fully determined by exactly
the ten declared fields (job_id, scan_path, include_subfolders,
started_at, completed_at, status, new_files, skipped_files, error_count,
errors) — there is no further field. -/
theorem C5_issued_job_status_shape (t : Tracker) (jobId : String)
    (h : jobId ∈ issuedIds t) :
    (∃ r : ScanJobStatus, getStatus t jobId = Except.ok r ∧
      (r.status = ScanStatus.running ∨ r.status = ScanStatus.completed ∨
        r.status = ScanStatus.failed)) ∧
    (∀ a b : ScanJobStatus, a.job_id = b.job_id → a.scan_path = b.scan_path →
      a.include_subfolders = b.include_subfolders → a.started_at = b.started_at →
      a.completed_at = b.completed_at → a.status = b.status →
      a.new_files = b.new_files → a.skipped_files = b.skipped_files →
      a.error_count = b.error_count → a.errors = b.errors → a = b) := by
  constructor
  · have hs := lookup_isSome_of_mem_keys h
    cases hl : t.lookup jobId with
    | none => rw [hl] at hs; simp at hs
    | some r =>
      refine ⟨r, by simp [getStatus, hl], ?_⟩
      cases r.status <;> simp
  · intro a b h1 h2 h3 h4 h5 h6 h7 h8 h9 h10
    cases a; cases b
    simp_all

theorem C5_issued_job_status_shape_witness :
    "job-1" ∈ issuedIds [("job-1",
      ScanJobStatus.mk "job-1" "/docs" true "t0" none ScanStatus.running
        none none none none)] ∧
    (∃ r : ScanJobStatus,
      getStatus [("job-1",
        ScanJobStatus.mk "job-1" "/docs" true "t0" none ScanStatus.running
          none none none none)] "job-1" = Except.ok r ∧
      (r.status = ScanStatus.running ∨ r.status = ScanStatus.completed ∨
        r.status = ScanStatus.failed)) := by
  refine ⟨by simp [issuedIds], ?_⟩
  exact (C5_issued_job_status_shape _ "job-1" (by simp [issuedIds])).1

/-! ## Spec-modelled backend: scanner and fingerprint store -/

/-- File content, standing for the byte string of the file. -/
abbrev FileContent := Nat

deriving instance DecidableEq for Except

/-- Modelled from the spec: the content fingerprint (a SHA256 checksum in
the README) is deterministic and content-sensitive; it is modelled by the
content itself, an injective stand-in for a collision-free hash. -/
def fingerprint (c : FileContent) : Nat := c

/-- A candidate file encountered by a scan: its path, and either its
content or the message of a per-file I/O error. -/
structure FileEntry where
  path : String
  content : Except String FileContent
deriving DecidableEq, Repr

/-- Modelled from the spec: the Fingerprint Store, mapping document
identity (the source path) to the stored content fingerprint. -/
abbrev Store : Type := List (String × Nat)

/-- Update-or-insert a binding of the Fingerprint Store. -/
def storeSet (s : Store) (p : String) (fp : Nat) : Store :=
  match s with
  | [] => [(p, fp)]
  | e :: rest => if e.1 = p then (p, fp) :: rest else e :: storeSet rest p fp

/-- Fingerprint lookup by document identity (path). -/
def storeGet (s : Store) (p : String) : Option Nat :=
  match s with
  | [] => none
  | e :: rest => if e.1 = p then some e.2 else storeGet rest p

/-- Accumulated outcome of one scan: the updated store, the ScanJob
counters and the enqueued ingestion tasks. -/
structure ScanOutcome where
  store : Store
  new_files : Nat
  skipped_files : Nat
  error_count : Nat
  errors : List String
  tasks : List (String × Nat)
deriving DecidableEq, Repr

/-- Modelled from the spec (section 4.1 and README Idempotent Scanning):
process one candidate file.  A per-file I/O error is recorded in the error
list and counter and the scan continues; an unknown or changed fingerprint
creates or re-queues the document, enqueues an ingestion task and counts
as new; an identical fingerprint is skipped with no task enqueued. -/
def scanFile (acc : ScanOutcome) (f : FileEntry) : ScanOutcome :=
  match f.content with
  | Except.error msg =>
    { acc with error_count := acc.error_count + 1, errors := acc.errors ++ [msg] }
  | Except.ok c =>
    let fp := fingerprint c
    match storeGet acc.store f.path with
    | some old =>
      if old = fp then
        { acc with skipped_files := acc.skipped_files + 1 }
      else
        { acc with store := storeSet acc.store f.path fp,
                   new_files := acc.new_files + 1,
                   tasks := acc.tasks ++ [(f.path, fp)] }
    | none =>
      { acc with store := storeSet acc.store f.path fp,
                 new_files := acc.new_files + 1,
                 tasks := acc.tasks ++ [(f.path, fp)] }

/-- Fresh counters over a given store. -/
def initOutcome (store : Store) : ScanOutcome :=
  { store := store, new_files := 0, skipped_files := 0, error_count := 0,
    errors := [], tasks := [] }

/-- Result of one whole ScanJob. -/
structure ScanJobResult where
  status : ScanStatus
  new_files : Nat
  skipped_files : Nat
  error_count : Nat
  errors : List String
  store : Store
  tasks : List (String × Nat)
deriving DecidableEq, Repr

/-- Modelled from the spec: run one scan over the candidate files of the
root.  `none` models an unreachable root path, which fails the whole job
immediately; otherwise every candidate is processed and the job
completes. -/
def runScan (store : Store) (root : Option (List FileEntry)) : ScanJobResult :=
  match root with
  | none =>
    { status := ScanStatus.failed, new_files := 0, skipped_files := 0,
      error_count := 0, errors := ["scan path does not exist or is not readable"],
      store := store, tasks := [] }
  | some files =>
    let o := files.foldl scanFile (initOutcome store)
    { status := ScanStatus.completed, new_files := o.new_files,
      skipped_files := o.skipped_files, error_count := o.error_count,
      errors := o.errors, store := o.store, tasks := o.tasks }

theorem storeGet_storeSet (s : Store) (p q : String) (fp : Nat) :
    storeGet (storeSet s p fp) q = if q = p then some fp else storeGet s q := by
  induction s with
  | nil =>
    by_cases h : q = p
    · rw [if_pos h]
      simp [storeGet, h.symm]
    · rw [if_neg h]
      have h2 : ¬ p = q := fun hh => h hh.symm
      simp [storeSet, storeGet, h2]
  | cons e rest ih =>
    by_cases hep : e.1 = p
    · show storeGet (if e.1 = p then (p, fp) :: rest else e :: storeSet rest p fp) q = _
      rw [if_pos hep]
      by_cases h : q = p
      · rw [if_pos h]
        simp [storeGet, h.symm]
      · rw [if_neg h]
        have h2 : ¬ p = q := fun hh => h hh.symm
        have h3 : ¬ e.1 = q := fun hh => h2 (hep.symm.trans hh)
        simp [storeGet, h2, h3]
    · show storeGet (if e.1 = p then (p, fp) :: rest else e :: storeSet rest p fp) q = _
      rw [if_neg hep]
      by_cases hq : e.1 = q
      · have hqp : ¬ q = p := fun hh => hep (hq.trans hh)
        rw [if_neg hqp]
        simp [storeGet, hq]
      · simp [storeGet, hq, ih]

theorem scanFile_store_other (acc : ScanOutcome) (f : FileEntry)
    (q : String) (hq : q ≠ f.path) :
    storeGet (scanFile acc f).store q = storeGet acc.store q := by
  unfold scanFile
  cases f.content with
  | error msg => rfl
  | ok c =>
    cases h : storeGet acc.store f.path with
    | some old =>
      by_cases he : old = fingerprint c <;>
        simp [h, he, storeGet_storeSet, hq]
    | none => simp [h, storeGet_storeSet, hq]

theorem scanFile_store_self (acc : ScanOutcome) (f : FileEntry)
    (c : FileContent) (hc : f.content = Except.ok c) :
    storeGet (scanFile acc f).store f.path = some (fingerprint c) := by
  unfold scanFile
  rw [hc]
  cases h : storeGet acc.store f.path with
  | some old =>
    by_cases he : old = fingerprint c
    · simp only [he, if_true]
      rw [h, he]
    · simp only [he, if_false]
      simp [storeGet_storeSet]
  | none => simp [storeGet_storeSet]

theorem foldl_scanFile_store_notin (files : List FileEntry)
    (acc : ScanOutcome) (q : String) (hq : q ∉ files.map FileEntry.path) :
    storeGet (files.foldl scanFile acc).store q = storeGet acc.store q := by
  induction files generalizing acc with
  | nil => rfl
  | cons f rest ih =>
    simp only [List.map_cons, List.mem_cons, not_or] at hq
    rw [List.foldl_cons, ih _ hq.2, scanFile_store_other _ _ _ hq.1]

theorem foldl_scanFile_store_binds (files : List FileEntry) (acc : ScanOutcome)
    (hnd : (files.map FileEntry.path).Nodup) :
    ∀ f ∈ files, ∀ c, f.content = Except.ok c →
      storeGet (files.foldl scanFile acc).store f.path = some (fingerprint c) := by
  induction files generalizing acc with
  | nil => intro f hf; simp at hf
  | cons g rest ih =>
    intro f hf c hc
    simp only [List.map_cons, List.nodup_cons] at hnd
    rw [List.foldl_cons]
    rcases List.mem_cons.mp hf with hfg | hf
    · subst hfg
      rw [foldl_scanFile_store_notin rest _ _ hnd.1]
      exact scanFile_store_self acc f c hc
    · exact ih (scanFile acc g) hnd.2 f hf c hc

theorem foldl_scanFile_all_skipped (files : List FileEntry) (acc : ScanOutcome)
    (h : ∀ f ∈ files, ∃ c, f.content = Except.ok c ∧
      storeGet acc.store f.path = some (fingerprint c)) :
    (files.foldl scanFile acc).new_files = acc.new_files ∧
    (files.foldl scanFile acc).skipped_files = acc.skipped_files + files.length ∧
    (files.foldl scanFile acc).tasks = acc.tasks ∧
    (files.foldl scanFile acc).store = acc.store := by
  induction files generalizing acc with
  | nil => simp
  | cons g rest ih =>
    obtain ⟨c, hc, hst⟩ := h g (List.mem_cons_self g rest)
    have hg : scanFile acc g = { acc with skipped_files := acc.skipped_files + 1 } := by
      unfold scanFile
      rw [hc, hst]
      simp
    rw [List.foldl_cons, hg]
    have hrest := ih { acc with skipped_files := acc.skipped_files + 1 } (by
      intro f hf
      obtain ⟨c2, hc2, hst2⟩ := h f (List.mem_cons_of_mem _ hf)
      exact ⟨c2, hc2, hst2⟩)
    refine ⟨hrest.1, ?_, hrest.2.2.1, hrest.2.2.2⟩
    rw [hrest.2.1]
    simp only [List.length_cons]
    omega

/-- C1: scanning is idempotent for unchanged content.  After a scan of a
set of readable candidate files with distinct paths, an immediate second
scan of the same candidates reports new_files = 0, counts every candidate
as skipped, and enqueues no ingestion task. -/
theorem C1_second_scan_idempotent (store : Store) (files : List FileEntry)
    (hok : ∀ f ∈ files, ∃ c, f.content = Except.ok c)
    (hnd : (files.map FileEntry.path).Nodup) :
    (runScan (runScan store (some files)).store (some files)).new_files = 0 ∧
    (runScan (runScan store (some files)).store (some files)).skipped_files
      = files.length ∧
    (runScan (runScan store (some files)).store (some files)).tasks = [] := by
  have hbind : ∀ f ∈ files, ∃ c, f.content = Except.ok c ∧
      storeGet (initOutcome (runScan store (some files)).store).store f.path
        = some (fingerprint c) := by
    intro f hf
    obtain ⟨c, hc⟩ := hok f hf
    refine ⟨c, hc, ?_⟩
    show storeGet (files.foldl scanFile (initOutcome store)).store f.path
      = some (fingerprint c)
    exact foldl_scanFile_store_binds files (initOutcome store) hnd f hf c hc
  have h2 := foldl_scanFile_all_skipped files
    (initOutcome (runScan store (some files)).store) hbind
  refine ⟨?_, ?_, ?_⟩
  · show (files.foldl scanFile (initOutcome (runScan store (some files)).store)).new_files = 0
    rw [h2.1]
    rfl
  · show (files.foldl scanFile
      (initOutcome (runScan store (some files)).store)).skipped_files = files.length
    rw [h2.2.1]
    show 0 + files.length = files.length
    omega
  · show (files.foldl scanFile (initOutcome (runScan store (some files)).store)).tasks = []
    rw [h2.2.2.1]
    rfl

theorem C1_second_scan_idempotent_witness :
    (∀ f ∈ [FileEntry.mk "/docs/a.pdf" (Except.ok 17),
            FileEntry.mk "/docs/b.pdf" (Except.ok 5)],
        ∃ c, f.content = Except.ok c) ∧
    (runScan (runScan [] (some [FileEntry.mk "/docs/a.pdf" (Except.ok 17),
        FileEntry.mk "/docs/b.pdf" (Except.ok 5)])).store
      (some [FileEntry.mk "/docs/a.pdf" (Except.ok 17),
        FileEntry.mk "/docs/b.pdf" (Except.ok 5)])).new_files = 0 ∧
    (runScan (runScan [] (some [FileEntry.mk "/docs/a.pdf" (Except.ok 17),
        FileEntry.mk "/docs/b.pdf" (Except.ok 5)])).store
      (some [FileEntry.mk "/docs/a.pdf" (Except.ok 17),
        FileEntry.mk "/docs/b.pdf" (Except.ok 5)])).skipped_files = 2 := by
  constructor
  · intro f hf
    rcases List.mem_cons.mp hf with h | h
    · exact ⟨17, by rw [h]⟩
    · rcases List.mem_cons.mp h with h2 | h2
      · exact ⟨5, by rw [h2]⟩
      · simp at h2
  · have := C1_second_scan_idempotent []
      [FileEntry.mk "/docs/a.pdf" (Except.ok 17),
       FileEntry.mk "/docs/b.pdf" (Except.ok 5)]
      (by intro f hf
          rcases List.mem_cons.mp hf with h | h
          · exact ⟨17, by rw [h]⟩
          · rcases List.mem_cons.mp h with h2 | h2
            · exact ⟨5, by rw [h2]⟩
            · simp at h2)
      (by decide)
    exact ⟨this.1, this.2.1⟩

/-- Message of a candidate file whose read failed, if any. -/
def fileErrMsg (f : FileEntry) : Option String :=
  match f.content with
  | Except.error m => some m
  | Except.ok _ => none

theorem scanFile_errors (acc : ScanOutcome) (f : FileEntry) :
    (scanFile acc f).errors = acc.errors ++ (fileErrMsg f).toList ∧
    (scanFile acc f).error_count = acc.error_count + (fileErrMsg f).toList.length := by
  unfold scanFile fileErrMsg
  cases f.content with
  | error m => simp
  | ok c =>
    cases h : storeGet acc.store f.path with
    | some old =>
      by_cases he : old = fingerprint c <;> simp [he]
    | none => simp

theorem foldl_scanFile_errors (files : List FileEntry) (acc : ScanOutcome) :
    (files.foldl scanFile acc).errors = acc.errors ++ files.filterMap fileErrMsg ∧
    (files.foldl scanFile acc).error_count
      = acc.error_count + (files.filterMap fileErrMsg).length := by
  induction files generalizing acc with
  | nil => simp
  | cons g rest ih =>
    rw [List.foldl_cons]
    obtain ⟨h1, h2⟩ := ih (scanFile acc g)
    obtain ⟨e1, e2⟩ := scanFile_errors acc g
    constructor
    · rw [h1, e1]
      cases hg : fileErrMsg g <;> simp [List.filterMap_cons, hg]
    · rw [h2, e2]
      cases hg : fileErrMsg g <;> simp [List.filterMap_cons, hg] <;> omega

/-- C8: a scan of an unreachable root path (modelled by `none`) fails the
whole job with a non-empty error list, while per-file I/O errors on
individual candidates only append their message to the job's error list
and increment error_count, and the job still completes. -/
theorem C8_root_failure_vs_file_errors (store : Store) (files : List FileEntry) :
    ((runScan store none).status = ScanStatus.failed ∧
      (runScan store none).errors ≠ []) ∧
    ((runScan store (some files)).status = ScanStatus.completed ∧
      (runScan store (some files)).errors = files.filterMap fileErrMsg ∧
      (runScan store (some files)).error_count
        = (files.filterMap fileErrMsg).length) := by
  refine ⟨⟨rfl, by simp [runScan]⟩, rfl, ?_, ?_⟩
  · have h := (foldl_scanFile_errors files (initOutcome store)).1
    show (files.foldl scanFile (initOutcome store)).errors = files.filterMap fileErrMsg
    rw [h]
    rfl
  · have h := (foldl_scanFile_errors files (initOutcome store)).2
    show (files.foldl scanFile (initOutcome store)).error_count
      = (files.filterMap fileErrMsg).length
    rw [h]
    show 0 + (files.filterMap fileErrMsg).length = (files.filterMap fileErrMsg).length
    omega

/-! ## Spec-modelled backend: search aggregator endpoints -/

/-- Modelled from the spec: the whole backend state visible to the HTTP
endpoints — ScanJob records, the Fingerprint Store, and the two indexes.
Index entries are kept in the result shape the aggregator serves; for the
Vector Index each entry carries the similarity score the external
nearest-neighbor capability reports, since embedding internals are
outside the core. -/
structure BackendState where
  tracker : Tracker
  store : Store
  ftsIndex : List SearchResult
  vectorIndex : List SearchResult
deriving DecidableEq, Repr

/-- Ranking relation: scores in non-increasing order. -/
def scoreGE (a b : SearchResult) : Prop := b.score ≤ a.score

instance : DecidableRel scoreGE := fun a b =>
  inferInstanceAs (Decidable (b.score ≤ a.score))

instance : IsTotal SearchResult scoreGE :=
  ⟨fun a b => le_total b.score a.score⟩

instance : IsTrans SearchResult scoreGE :=
  ⟨fun _ _ _ hab hbc => le_trans hbc hab⟩

/-- Rank a list of results by score, descending. -/
def rankByScore (l : List SearchResult) : List SearchResult :=
  List.insertionSort scoreGE l

/-- Keyword match used by the full-text model: the query occurs in the
chunk text (the inverted-index internals are an external capability). -/
def matchesQuery (q : String) (r : SearchResult) : Bool :=
  (r.snippet.splitOn q).length != 1

/-- Modelled from the spec: GET /search/fulltext.  An empty query fails
with ValidationError; otherwise the matches are ranked by score, the
requested page is cut out, and the total match count is reported.  The
endpoint is read-only: it returns the backend state unchanged. -/
def searchFullTextEndpoint (s : BackendState) (q : String)
    (page pageSize : Nat) :
    Except APIError FullTextSearchResponse × BackendState :=
  (if q = "" then Except.error APIError.validationError
   else
     let ranked := rankByScore (s.ftsIndex.filter (matchesQuery q))
     Except.ok
       { query := q, total_results := ranked.length, page := page,
         page_size := pageSize,
         results := (ranked.drop ((page - 1) * pageSize)).take pageSize },
   s)

/-- Modelled from the spec: POST /search/semantic.  An empty query fails
with ValidationError; otherwise the top_k nearest entries of the Vector
Index are returned by similarity score descending, with no total count.
The endpoint is read-only: it returns the backend state unchanged. -/
def semanticSearchEndpoint (s : BackendState) (q : String) (top_k : Nat) :
    Except APIError SemanticSearchResponse × BackendState :=
  (if q = "" then Except.error APIError.validationError
   else Except.ok { query := q, results := (rankByScore s.vectorIndex).take top_k },
   s)

/-- Modelled from the spec: POST /scan.  Creates a ScanJob, runs the scan
and records the outcome in the tracker — a mutating endpoint, unlike the
two search endpoints. -/
def triggerScanEndpoint (s : BackendState) (path : String) (inc : Bool)
    (root : Option (List FileEntry)) : String × BackendState :=
  let r := runScan s.store root
  let id := "job-" ++ Nat.repr s.tracker.length
  let job : ScanJobStatus :=
    { job_id := id, scan_path := path, include_subfolders := inc,
      started_at := "", completed_at := some "", status := r.status,
      new_files := some r.new_files, skipped_files := some r.skipped_files,
      error_count := some r.error_count, errors := some r.errors }
  (id, { s with tracker := s.tracker ++ [(id, job)], store := r.store })

/-- C4: both search modes fail with ValidationError on the empty query,
and neither search endpoint mutates any stored backend state (tracker,
fingerprint store, or either index) on any query. -/
theorem C4_empty_query_validation_and_read_only (s : BackendState)
    (q : String) (page pageSize top_k : Nat) :
    (searchFullTextEndpoint s "" page pageSize).1
      = Except.error APIError.validationError ∧
    (semanticSearchEndpoint s "" top_k).1
      = Except.error APIError.validationError ∧
    (searchFullTextEndpoint s q page pageSize).2 = s ∧
    (semanticSearchEndpoint s q top_k).2 = s := by
  refine ⟨?_, ?_, rfl, rfl⟩
  · simp [searchFullTextEndpoint]
  · simp [semanticSearchEndpoint]

theorem sorted_rankByScore (l : List SearchResult) :
    (rankByScore l).Pairwise scoreGE :=
  List.sorted_insertionSort scoreGE l

/-- C2: whenever semantic search answers a query (for any positive top_k),
it returns at most top_k results ordered by non-increasing similarity
score, and the semantic response shape is fully determined by its two
fields query and results — it carries no total-count field. -/
theorem C2_semantic_topk_sorted_no_total (s : BackendState) (q : String)
    (k : Nat) (resp : SemanticSearchResponse) (hk : 0 < k)
    (h : (semanticSearchEndpoint s q k).1 = Except.ok resp) :
    resp.results.length ≤ k ∧
    resp.results.Pairwise scoreGE ∧
    (∀ a b : SemanticSearchResponse, a.query = b.query →
      a.results = b.results → a = b) := by
  have hq : ¬ q = "" := by
    intro hq
    subst hq
    simp [semanticSearchEndpoint] at h
  have hresp : resp = { query := q, results := (rankByScore s.vectorIndex).take k } := by
    unfold semanticSearchEndpoint at h
    rw [if_neg hq] at h
    exact (Except.ok.inj h).symm
  subst hresp
  refine ⟨?_, ?_, ?_⟩
  · show ((rankByScore s.vectorIndex).take k).length ≤ k
    rw [List.length_take]
    exact min_le_left _ _
  · exact (sorted_rankByScore s.vectorIndex).sublist (List.take_sublist _ _)
  · intro a b h1 h2
    cases a; cases b
    simp_all

theorem C2_semantic_topk_sorted_no_total_witness :
    (0 : Nat) < 5 ∧
    (semanticSearchEndpoint
        (BackendState.mk [] [] []
          [SearchResult.mk 1 "a.pdf" 1 "alpha" 1 none,
           SearchResult.mk 2 "b.pdf" 1 "beta" 3 none])
        "contract" 5).1
      = Except.ok (SemanticSearchResponse.mk "contract"
          [SearchResult.mk 2 "b.pdf" 1 "beta" 3 none,
           SearchResult.mk 1 "a.pdf" 1 "alpha" 1 none]) ∧
    (SemanticSearchResponse.mk "contract"
        [SearchResult.mk 2 "b.pdf" 1 "beta" 3 none,
         SearchResult.mk 1 "a.pdf" 1 "alpha" 1 none]).results.length ≤ 5 ∧
    (SemanticSearchResponse.mk "contract"
        [SearchResult.mk 2 "b.pdf" 1 "beta" 3 none,
         SearchResult.mk 1 "a.pdf" 1 "alpha" 1 none]).results.Pairwise scoreGE := by
  have h : (semanticSearchEndpoint
      (BackendState.mk [] [] []
        [SearchResult.mk 1 "a.pdf" 1 "alpha" 1 none,
         SearchResult.mk 2 "b.pdf" 1 "beta" 3 none])
      "contract" 5).1
    = Except.ok (SemanticSearchResponse.mk "contract"
        [SearchResult.mk 2 "b.pdf" 1 "beta" 3 none,
         SearchResult.mk 1 "a.pdf" 1 "alpha" 1 none]) := by decide
  have hmain := C2_semantic_topk_sorted_no_total
    (BackendState.mk [] [] []
      [SearchResult.mk 1 "a.pdf" 1 "alpha" 1 none,
       SearchResult.mk 2 "b.pdf" 1 "beta" 3 none])
    "contract" 5
    (SemanticSearchResponse.mk "contract"
      [SearchResult.mk 2 "b.pdf" 1 "beta" 3 none,
       SearchResult.mk 1 "a.pdf" 1 "alpha" 1 none])
    (by decide) h
  exact ⟨by decide, h, hmain.1, hmain.2.1⟩

/-! ## Frontend: FolderStatus cancellation (frontend FolderStatus component) -/

/-- HTTP requests the FolderStatus component can issue, one per typed
wrapper of frontend/src/api.ts that the component calls. -/
inductive ClientRequest where
  | triggerScanReq (path : String) (include_subfolders : Bool)
  | getScanStatusReq (jobId : String)
  | getFolderSettingsReq
deriving DecidableEq, Repr

/-- Effect of one client request on the backend.  Status polling and
settings reads leave the backend unchanged; a scan trigger records a new
ScanJob (spec-modelled, as in triggerScanEndpoint).  The `root` argument
carries the candidate files the backend would scan. -/
def applyRequest (root : Option (List FileEntry)) (b : BackendState)
    (r : ClientRequest) : BackendState :=
  match r with
  | ClientRequest.triggerScanReq path inc => (triggerScanEndpoint b path inc root).2
  | ClientRequest.getScanStatusReq _ => b
  | ClientRequest.getFolderSettingsReq => b

/-- Effect of a request sequence on the backend. -/
def applyRequests (root : Option (List FileEntry)) (b : BackendState)
    (rs : List ClientRequest) : BackendState :=
  rs.foldl (applyRequest root) b

/-- Local state of the FolderStatus component (the useState hooks, the
polling interval ref, and the localStorage key currentScanJobId). -/
structure ClientState where
  settings : Option FolderSettings
  scanning : Bool
  jobStatus : Option ScanJobStatus
  message : Option String
  error : Option String
  pollCount : Nat
  intervalActive : Bool
  savedScanJobId : Option String
deriving DecidableEq, Repr

/-- The handleCancel handler of the FolderStatus component: clears the
polling interval, resets scanning, jobStatus and pollCount, sets the
cancellation message, and removes the saved job id from localStorage.  It
performs no fetch, so it issues no request. -/
def handleCancel (c : ClientState) : ClientState × List ClientRequest :=
  ({ c with intervalActive := false, scanning := false, jobStatus := none,
            message := some "Scan cancelled", pollCount := 0,
            savedScanJobId := none }, [])

/-- C7: cancelling is client-local.  handleCancel sends no request to the
backend, so the backend state (every ScanJob and all pipeline state) is
unchanged; on the client it only stops polling, resets the scan-related
local state and clears the saved job id. -/
theorem C7_cancel_is_client_local (c : ClientState) (b : BackendState)
    (root : Option (List FileEntry)) :
    (handleCancel c).2 = [] ∧
    applyRequests root b (handleCancel c).2 = b ∧
    (handleCancel c).1.scanning = false ∧
    (handleCancel c).1.jobStatus = none ∧
    (handleCancel c).1.intervalActive = false ∧
    (handleCancel c).1.savedScanJobId = none ∧
    (handleCancel c).1.pollCount = 0 ∧
    (handleCancel c).1.settings = c.settings ∧
    (handleCancel c).1.error = c.error :=
  ⟨rfl, rfl, rfl, rfl, rfl, rfl, rfl, rfl, rfl⟩

/-! ## Frontend: the fetchAPI wrapper (frontend/src/api.ts) -/

/-- A parsed JSON body, as far as fetchAPI inspects one: a JSON object
with string-valued fields (fetchAPI only ever reads the detail field). -/
abbrev Json : Type := List (String × String)

/-- An HTTP response as fetchAPI sees it.  `jsonBody = none` models a body
on which response.json() rejects (not valid JSON). -/
structure HttpResponse where
  ok : Bool
  status : Nat
  statusText : String
  jsonBody : Option Json
deriving DecidableEq, Repr

/-- Outcome of a rejected fetchAPI promise: either the Error the wrapper
throws itself, or the SyntaxError of response.json() on an ok response
whose body is not JSON. -/
inductive FetchError where
  | thrown (message : String)
  | syntaxError
deriving DecidableEq, Repr

/-- The fetchAPI wrapper of frontend/src/api.ts.  On an ok response it
returns the parsed JSON body (response.json()).  Otherwise it parses the
body, falling back to a detail object built from the status text when the
body is not JSON, and throws an Error with the detail field if truthy
(non-empty) and with HTTP plus the status code otherwise. -/
def fetchAPI (resp : HttpResponse) : Except FetchError Json :=
  if resp.ok then
    match resp.jsonBody with
    | some j => Except.ok j
    | none => Except.error FetchError.syntaxError
  else
    let errDetail : Option String :=
      match resp.jsonBody with
      | some j => j.lookup "detail"
      | none => some resp.statusText
    Except.error (FetchError.thrown
      (match errDetail with
       | some d => if d ≠ "" then d else "HTTP " ++ Nat.repr resp.status
       | none => "HTTP " ++ Nat.repr resp.status))

/-- C9 fails as stated: a non-ok response whose body parses as JSON with a
detail field holding the empty string (falsy in JavaScript) is thrown as
"HTTP 500", not as the detail field value "". -/
theorem C9_counterexample_empty_detail :
    ((HttpResponse.mk false 500 "Internal Server Error"
        (some [("detail", "")])).jsonBody = some [("detail", "")] ∧
      ([("detail", "")] : Json).lookup "detail" = some "") ∧
    fetchAPI (HttpResponse.mk false 500 "Internal Server Error"
        (some [("detail", "")]))
      = Except.error (FetchError.thrown "HTTP 500") ∧
    ¬ fetchAPI (HttpResponse.mk false 500 "Internal Server Error"
        (some [("detail", "")]))
      = Except.error (FetchError.thrown "") := by decide

/-- C9 (amended): fetchAPI returns a parsed body v exactly when the HTTP
response is ok and its body parses as v.  On a non-ok response it throws
an Error whose message is the body's detail field when the body parses as
JSON with a non-empty (truthy) detail field, the HTTP status text when
the body is not JSON and the status text is non-empty, and "HTTP" plus
the status code otherwise; it never returns a value for a non-ok
response. -/
theorem C9_fetchAPI_ok_iff_and_error_message (resp : HttpResponse) :
    (∀ v : Json, fetchAPI resp = Except.ok v ↔
      (resp.ok = true ∧ resp.jsonBody = some v)) ∧
    (resp.ok = false → ∀ j d, resp.jsonBody = some j →
      j.lookup "detail" = some d → d ≠ "" →
      fetchAPI resp = Except.error (FetchError.thrown d)) ∧
    (resp.ok = false → resp.jsonBody = none → resp.statusText ≠ "" →
      fetchAPI resp = Except.error (FetchError.thrown resp.statusText)) ∧
    (resp.ok = false → ∀ j, resp.jsonBody = some j →
      (j.lookup "detail" = none ∨ j.lookup "detail" = some "") →
      fetchAPI resp
        = Except.error (FetchError.thrown ("HTTP " ++ Nat.repr resp.status))) ∧
    (resp.ok = false → resp.jsonBody = none → resp.statusText = "" →
      fetchAPI resp
        = Except.error (FetchError.thrown ("HTTP " ++ Nat.repr resp.status))) ∧
    (resp.ok = false → ∀ v : Json, ¬ fetchAPI resp = Except.ok v) := by
  obtain ⟨ok, status, text, body⟩ := resp
  refine ⟨?_, ?_, ?_, ?_, ?_, ?_⟩
  · intro v
    cases ok with
    | true =>
      cases body with
      | some j => simp [fetchAPI]
      | none => simp [fetchAPI]
    | false => simp [fetchAPI]
  · intro hok j d hb hd hne
    cases hok
    cases hb
    simp [fetchAPI, hd, hne]
  · intro hok hb hne
    cases hok
    cases hb
    simp [fetchAPI, hne]
  · intro hok j hb hd
    cases hok
    cases hb
    cases hd with
    | inl h => simp [fetchAPI, h]
    | inr h => simp [fetchAPI, h]
  · intro hok hb hne
    cases hok
    cases hb
    have hne2 : text = "" := hne
    subst hne2
    simp [fetchAPI]
  · intro hok v h
    cases hok
    cases body with
    | some j => simp [fetchAPI] at h
    | none => simp [fetchAPI] at h

theorem C9_fetchAPI_ok_iff_and_error_message_witness :
    fetchAPI (HttpResponse.mk false 404 "Not Found"
        (some [("detail", "Scan job not found")]))
      = Except.error (FetchError.thrown "Scan job not found") :=
  (C9_fetchAPI_ok_iff_and_error_message
      (HttpResponse.mk false 404 "Not Found"
        (some [("detail", "Scan job not found")]))).2.1
    rfl [("detail", "Scan job not found")] "Scan job not found" rfl
    (by decide) (by decide)

/-! ## Frontend: the FileUpload component (frontend FileUpload) -/

/-- Status of one entry of the FileUpload component file list. -/
inductive UploadStatus where
  | pending
  | uploading
  | processing
  | done
  | error
deriving DecidableEq, Repr

/-- One entry of the FileUpload component file list. -/
structure UploadedFile where
  name : String
  status : UploadStatus
deriving DecidableEq, Repr

/-- The PDF test of handleFiles, file.name.toLowerCase().endsWith(".pdf"):
each character of the name is lower-cased and the ".pdf" suffix is
tested, over the character list of the name. -/
def isPdfName (name : String) : Bool :=
  ".pdf".data.isSuffixOf (name.data.map Char.toLower)

/-- The handleFiles handler of the FileUpload component: a null file list
does nothing; otherwise it keeps the selected names passing the PDF test,
alerts and returns if none remain (file list unchanged, nothing
uploaded), and otherwise appends the kept files as pending entries and
starts an upload for each of them.  The second component collects the
names whose upload is started. -/
def handleFiles (files : List UploadedFile) (fileList : Option (List String)) :
    List UploadedFile × List String :=
  match fileList with
  | none => (files, [])
  | some sel =>
    let pdfFiles := sel.filter isPdfName
    if pdfFiles.isEmpty then (files, [])
    else
      (files ++ pdfFiles.map (fun n => UploadedFile.mk n UploadStatus.pending),
       pdfFiles)

/-- C10: only selected names that pass the case-insensitive ".pdf" test
are queued and uploaded — every uploaded name is a selected PDF name and
every selected PDF name is uploaded, every queued entry is either an old
entry or a PDF entry — and when the selection contains no such name,
nothing is uploaded and the component file list is unchanged. -/
theorem C10_only_pdfs_uploaded (files : List UploadedFile) (sel : List String) :
    (∀ n ∈ (handleFiles files (some sel)).2, n ∈ sel ∧ isPdfName n = true) ∧
    (∀ n ∈ sel, isPdfName n = true → n ∈ (handleFiles files (some sel)).2) ∧
    (∀ f ∈ (handleFiles files (some sel)).1,
      f ∈ files ∨ isPdfName f.name = true) ∧
    ((∀ n ∈ sel, isPdfName n = false) →
      (handleFiles files (some sel)).1 = files ∧
        (handleFiles files (some sel)).2 = []) := by
  by_cases hemp : (sel.filter isPdfName).isEmpty
  · have hred : handleFiles files (some sel) = (files, []) := by
      show (if (sel.filter isPdfName).isEmpty then (files, [])
        else (files ++ (sel.filter isPdfName).map
          (fun n => UploadedFile.mk n UploadStatus.pending),
          sel.filter isPdfName)) = (files, [])
      rw [if_pos hemp]
    rw [hred]
    refine ⟨?_, ?_, ?_, ?_⟩
    · intro n hn
      simp at hn
    · intro n hn hpdf
      rw [List.isEmpty_iff] at hemp
      have hmem : n ∈ sel.filter isPdfName := List.mem_filter.mpr ⟨hn, hpdf⟩
      rw [hemp] at hmem
      simp at hmem
    · intro f hf
      exact Or.inl hf
    · intro _
      exact ⟨rfl, rfl⟩
  · have hred : handleFiles files (some sel) =
        (files ++ (sel.filter isPdfName).map
          (fun n => UploadedFile.mk n UploadStatus.pending),
         sel.filter isPdfName) := by
      show (if (sel.filter isPdfName).isEmpty then (files, [])
        else (files ++ (sel.filter isPdfName).map
          (fun n => UploadedFile.mk n UploadStatus.pending),
          sel.filter isPdfName)) = _
      rw [if_neg hemp]
    rw [hred]
    refine ⟨?_, ?_, ?_, ?_⟩
    · intro n hn
      have := List.mem_filter.mp hn
      exact ⟨this.1, this.2⟩
    · intro n hn hpdf
      exact List.mem_filter.mpr ⟨hn, hpdf⟩
    · intro f hf
      rcases List.mem_append.mp hf with h | h
      · exact Or.inl h
      · obtain ⟨n, hn, rfl⟩ := List.mem_map.mp h
        exact Or.inr (List.mem_filter.mp hn).2
    · intro hall
      exfalso
      apply hemp
      rw [List.isEmpty_iff, List.filter_eq_nil_iff]
      intro n hn
      rw [hall n hn]
      simp

theorem C10_only_pdfs_uploaded_witness :
    ("Doc.PDF" ∈ ["Doc.PDF", "note.txt"] ∧ isPdfName "Doc.PDF" = true) ∧
    "Doc.PDF" ∈ (handleFiles [] (some ["Doc.PDF", "note.txt"])).2 ∧
    (∀ n ∈ (handleFiles [] (some ["Doc.PDF", "note.txt"])).2,
      n ∈ ["Doc.PDF", "note.txt"] ∧ isPdfName n = true) := by
  refine ⟨⟨by decide, by decide⟩, ?_, ?_⟩
  · exact (C10_only_pdfs_uploaded [] ["Doc.PDF", "note.txt"]).2.1
      "Doc.PDF" (by decide) (by decide)
  · exact (C10_only_pdfs_uploaded [] ["Doc.PDF", "note.txt"]).1

/-! ## Decimal rendering of document ids (groundwork for the grouping key) -/

theorem toDigitsCore_eq_digits (f : Nat) :
    ∀ n l, 0 < n → n < 10 ^ f →
      Nat.toDigitsCore 10 f n l
        = ((Nat.digits 10 n).map Nat.digitChar).reverse ++ l := by
  induction f with
  | zero =>
    intro n l hn hf
    rw [pow_zero] at hf
    omega
  | succ f ih =>
    intro n l hn hf
    have hdig : Nat.digits 10 n = n % 10 :: Nat.digits 10 (n / 10) :=
      Nat.digits_def' (by norm_num) hn
    by_cases h10 : n / 10 = 0
    · have hzero : Nat.digits 10 (n / 10) = [] := by
        rw [h10]
        exact Nat.digits_zero 10
      show (if n / 10 = 0 then Nat.digitChar (n % 10) :: l
        else Nat.toDigitsCore 10 f (n / 10) (Nat.digitChar (n % 10) :: l)) = _
      rw [if_pos h10, hdig, hzero]
      simp
    · show (if n / 10 = 0 then Nat.digitChar (n % 10) :: l
        else Nat.toDigitsCore 10 f (n / 10) (Nat.digitChar (n % 10) :: l)) = _
      rw [if_neg h10]
      have hlt : n / 10 < 10 ^ f := by
        rw [Nat.div_lt_iff_lt_mul (by norm_num)]
        calc n < 10 ^ (f + 1) := hf
        _ = 10 ^ f * 10 := by rw [pow_succ]
      rw [ih (n / 10) (Nat.digitChar (n % 10) :: l) (Nat.pos_of_ne_zero h10) hlt,
        hdig]
      simp

theorem repr_data_eq_digits (n : Nat) (hn : 0 < n) :
    (Nat.repr n).data = ((Nat.digits 10 n).map Nat.digitChar).reverse := by
  show (List.asString (Nat.toDigitsCore 10 (n + 1) n [])).data = _
  have hf : n < 10 ^ (n + 1) :=
    lt_of_lt_of_le (Nat.lt_pow_self (by norm_num) n)
      (Nat.pow_le_pow_right (by norm_num) (Nat.le_succ n))
  rw [toDigitsCore_eq_digits (n + 1) n [] hn hf]
  simp [List.asString]

theorem digitChar_ne_dash (d : Nat) (hd : d < 10) : Nat.digitChar d ≠ '-' := by
  interval_cases d <;> decide

theorem digitChar_inj_lt (a b : Nat) (ha : a < 10) (hb : b < 10)
    (h : Nat.digitChar a = Nat.digitChar b) : a = b := by
  interval_cases a <;> interval_cases b <;> revert h <;> decide

theorem dash_not_mem_repr (n : Nat) : '-' ∉ (Nat.repr n).data := by
  cases n with
  | zero => decide
  | succ k =>
    rw [repr_data_eq_digits (k + 1) (Nat.succ_pos k)]
    intro hmem
    rw [List.mem_reverse] at hmem
    obtain ⟨d, hd, hdc⟩ := List.mem_map.mp hmem
    exact digitChar_ne_dash d (Nat.digits_lt_base (by norm_num) hd) hdc

theorem map_digitChar_inj (l1 l2 : List Nat)
    (h1 : ∀ x ∈ l1, x < 10) (h2 : ∀ x ∈ l2, x < 10)
    (h : l1.map Nat.digitChar = l2.map Nat.digitChar) : l1 = l2 := by
  induction l1 generalizing l2 with
  | nil =>
    cases l2 with
    | nil => rfl
    | cons b t => exact absurd h (by simp)
  | cons a t ih =>
    cases l2 with
    | nil => exact absurd h (by simp)
    | cons b t2 =>
      simp only [List.map_cons, List.cons.injEq] at h
      have ha := h1 a (List.mem_cons_self a t)
      have hb := h2 b (List.mem_cons_self b t2)
      have hab := digitChar_inj_lt a b ha hb h.1
      have ht := ih t2 (fun x hx => h1 x (List.mem_cons_of_mem a hx))
        (fun x hx => h2 x (List.mem_cons_of_mem b hx)) h.2
      rw [hab, ht]

theorem repr_injective (m n : Nat) (h : Nat.repr m = Nat.repr n) : m = n := by
  have hd := congrArg String.data h
  rcases Nat.eq_zero_or_pos m with hm | hm
  · rcases Nat.eq_zero_or_pos n with hn | hn
    · rw [hm, hn]
    · exfalso
      subst hm
      rw [repr_data_eq_digits n hn] at hd
      have hmap : (Nat.digits 10 n).map Nat.digitChar = ['0'] := by
        have := congrArg List.reverse hd
        simpa using this.symm
      have hdig : Nat.digits 10 n = [0] := by
        have h0 : ([0] : List Nat).map Nat.digitChar = ['0'] := by decide
        refine map_digitChar_inj _ _ ?_ ?_ (hmap.trans h0.symm)
        · intro x hx
          exact Nat.digits_lt_base (by norm_num) hx
        · intro x hx
          simp at hx
          omega
      have := Nat.ofDigits_digits 10 n
      rw [hdig] at this
      simp [Nat.ofDigits] at this
      omega
  · rcases Nat.eq_zero_or_pos n with hn | hn
    · exfalso
      subst hn
      rw [repr_data_eq_digits m hm] at hd
      have hmap : (Nat.digits 10 m).map Nat.digitChar = ['0'] := by
        have := congrArg List.reverse hd
        simpa using this
      have hdig : Nat.digits 10 m = [0] := by
        have h0 : ([0] : List Nat).map Nat.digitChar = ['0'] := by decide
        refine map_digitChar_inj _ _ ?_ ?_ (hmap.trans h0.symm)
        · intro x hx
          exact Nat.digits_lt_base (by norm_num) hx
        · intro x hx
          simp at hx
          omega
      have := Nat.ofDigits_digits 10 m
      rw [hdig] at this
      simp [Nat.ofDigits] at this
      omega
    · rw [repr_data_eq_digits m hm, repr_data_eq_digits n hn] at hd
      have hmap : (Nat.digits 10 m).map Nat.digitChar
          = (Nat.digits 10 n).map Nat.digitChar := by
        have := congrArg List.reverse hd
        simpa using this
      have hdig := map_digitChar_inj _ _
        (fun x hx => Nat.digits_lt_base (by norm_num) hx)
        (fun x hx => Nat.digits_lt_base (by norm_num) hx) hmap
      have hm2 := Nat.ofDigits_digits 10 m
      have hn2 := Nat.ofDigits_digits 10 n
      rw [← hm2, ← hn2, hdig]

theorem append_dash_inj (l1 : List Char) :
    ∀ l2 xs ys : List Char, '-' ∉ l1 → '-' ∉ l2 →
      l1 ++ '-' :: xs = l2 ++ '-' :: ys → l1 = l2 ∧ xs = ys := by
  induction l1 with
  | nil =>
    intro l2 xs ys _ h2 h
    cases l2 with
    | nil => simpa using h
    | cons c t =>
      exfalso
      simp only [List.nil_append, List.cons_append, List.cons.injEq] at h
      apply h2
      rw [h.1]
      exact List.mem_cons_self c t
  | cons a t1 ih =>
    intro l2 xs ys h1 h2 h
    cases l2 with
    | nil =>
      exfalso
      simp only [List.cons_append, List.nil_append, List.cons.injEq] at h
      apply h1
      rw [← h.1]
      exact List.mem_cons_self a t1
    | cons b t2 =>
      simp only [List.cons_append, List.cons.injEq] at h
      have hr := ih t2 xs ys (fun hm => h1 (List.mem_cons_of_mem a hm))
        (fun hm => h2 (List.mem_cons_of_mem b hm)) h.2
      exact ⟨by rw [h.1, hr.1], hr.2⟩

/-! ## Frontend: grouping of search results (SearchResults component) -/

/-- The grouping key of the groupedResults reduce: the template string
document_id-filename. -/
def groupKey (document_id : Nat) (filename : String) : String :=
  Nat.repr document_id ++ "-" ++ filename

theorem groupKey_inj {a b : Nat} {x y : String}
    (h : groupKey a x = groupKey b y) : a = b ∧ x = y := by
  have hd : (Nat.repr a).data ++ '-' :: x.data
      = (Nat.repr b).data ++ '-' :: y.data := by
    have h2 := congrArg String.data h
    simpa [groupKey, String.data_append] using h2
  have hsplit := append_dash_inj (Nat.repr a).data (Nat.repr b).data
    x.data y.data (dash_not_mem_repr a) (dash_not_mem_repr b) hd
  exact ⟨repr_injective a b (String.ext hsplit.1), String.ext hsplit.2⟩

/-- One group of the grouped output: document id, filename and the
results collected for that document, in push order. -/
structure DocGroup where
  document_id : Nat
  filename : String
  results : List SearchResult
deriving DecidableEq, Repr

/-- Key under which a group is stored. -/
def keyOf (g : DocGroup) : String := groupKey g.document_id g.filename

/-- Key of a result, as computed in the reduce. -/
def keyOfResult (r : SearchResult) : String := groupKey r.document_id r.filename

/-- The update applied to each stored group when the key of the incoming
result is already present: the group under that key receives the result
at the end of its list, every other group is untouched. -/
def pushResult (r : SearchResult) (g : DocGroup) : DocGroup :=
  if keyOf g == keyOfResult r then { g with results := g.results ++ [r] } else g

/-- One step of the groupedResults reduce of the SearchResults component:
push the result onto the group already stored under its key, or append a
fresh group when the key is new. -/
def insertGrouped (acc : List DocGroup) (r : SearchResult) : List DocGroup :=
  if acc.any (fun g => keyOf g == keyOfResult r) then
    acc.map (pushResult r)
  else acc ++ [DocGroup.mk r.document_id r.filename [r]]

/-- The groupedResults reduce of the SearchResults component, grouping the
flat ranked list by document. -/
def groupedResults (rs : List SearchResult) : List DocGroup :=
  rs.foldl insertGrouped []

/-- The keys under which the groups of the accumulator are stored are
pairwise distinct. -/
def nodupKeys (acc : List DocGroup) : Prop := (acc.map keyOf).Nodup

/-- Results stored under a key in the accumulator ([] when the key is
absent). -/
def oldRes (acc : List DocGroup) (k : String) : List SearchResult :=
  match acc with
  | [] => []
  | g :: rest => if keyOf g == k then g.results else oldRes rest k

theorem keyOf_pushResult (r : SearchResult) (g : DocGroup) :
    keyOf (pushResult r g) = keyOf g := by
  unfold pushResult
  by_cases hk : keyOf g == keyOfResult r
  · rw [if_pos hk]
    rfl
  · rw [if_neg hk]

theorem nodupKeys_insertGrouped (acc : List DocGroup) (r : SearchResult)
    (h : nodupKeys acc) : nodupKeys (insertGrouped acc r) := by
  unfold insertGrouped
  by_cases hany : acc.any (fun g => keyOf g == keyOfResult r)
  · rw [if_pos hany]
    unfold nodupKeys at h ⊢
    rw [List.map_map]
    have hcomp : keyOf ∘ pushResult r = keyOf := funext fun g => keyOf_pushResult r g
    rw [hcomp]
    exact h
  · rw [if_neg hany]
    unfold nodupKeys at h ⊢
    rw [List.map_append]
    refine List.Nodup.append h (List.nodup_singleton _) ?_
    intro k hk1 hk2
    simp only [List.map_cons, List.map_nil, List.mem_singleton] at hk2
    obtain ⟨g1, hg1, hg1k⟩ := List.mem_map.mp hk1
    apply hany
    rw [List.any_eq_true]
    refine ⟨g1, hg1, ?_⟩
    rw [beq_iff_eq, hg1k, hk2]
    rfl

theorem oldRes_of_mem (acc : List DocGroup) (g : DocGroup)
    (hnd : nodupKeys acc) (hg : g ∈ acc) : oldRes acc (keyOf g) = g.results := by
  induction acc with
  | nil => simp at hg
  | cons h0 rest ih =>
    unfold nodupKeys at hnd
    simp only [List.map_cons, List.nodup_cons] at hnd
    rcases List.mem_cons.mp hg with hfg | hgr
    · subst hfg
      unfold oldRes
      simp
    · unfold oldRes
      have hne : (keyOf h0 == keyOf g) = false := by
        rw [beq_eq_false_iff_ne]
        intro hh
        exact hnd.1 (hh ▸ List.mem_map_of_mem keyOf hgr)
      rw [hne]
      simp only [Bool.false_eq_true, if_false]
      exact ih hnd.2 hgr

theorem oldRes_map_pushResult_other (r : SearchResult) (k : String)
    (acc : List DocGroup) (hrk : (keyOfResult r == k) = false) :
    oldRes (acc.map (pushResult r)) k = oldRes acc k := by
  induction acc with
  | nil => rfl
  | cons g rest ih =>
    simp only [List.map_cons]
    unfold oldRes
    rw [keyOf_pushResult]
    by_cases hk : (keyOf g == k) = true
    · rw [hk]
      simp only [if_true]
      unfold pushResult
      have hne : (keyOf g == keyOfResult r) = false := by
        rw [beq_eq_false_iff_ne]
        intro hh
        rw [beq_iff_eq] at hk
        rw [beq_eq_false_iff_ne] at hrk
        exact hrk (hh.symm.trans hk)
      rw [hne]
      simp
    · rw [Bool.not_eq_true] at hk
      rw [hk]
      simp only [Bool.false_eq_true, if_false]
      exact ih

theorem oldRes_map_pushResult_self (r : SearchResult) (k : String)
    (acc : List DocGroup) (hrk : (keyOfResult r == k) = true)
    (hany : acc.any (fun g => keyOf g == keyOfResult r) = true) :
    oldRes (acc.map (pushResult r)) k = oldRes acc k ++ [r] := by
  induction acc with
  | nil => simp at hany
  | cons g rest ih =>
    simp only [List.map_cons]
    unfold oldRes
    rw [keyOf_pushResult]
    rw [beq_iff_eq] at hrk
    by_cases hk : (keyOf g == k) = true
    · rw [hk]
      simp only [if_true]
      unfold pushResult
      have heq : (keyOf g == keyOfResult r) = true := by
        rw [beq_iff_eq] at hk ⊢
        rw [hk, ← hrk]
      rw [heq]
      simp
    · rw [Bool.not_eq_true] at hk
      rw [hk]
      simp only [Bool.false_eq_true, if_false]
      apply ih
      simp only [List.any_cons, Bool.or_eq_true] at hany
      rcases hany with h1 | h1
      · exfalso
        rw [beq_iff_eq] at h1
        rw [← Bool.not_eq_true, beq_iff_eq] at hk
        exact hk (h1.trans hrk)
      · exact h1

theorem oldRes_append_new (r : SearchResult) (k : String)
    (acc : List DocGroup)
    (hany : acc.any (fun g => keyOf g == keyOfResult r) = false) :
    oldRes (acc ++ [DocGroup.mk r.document_id r.filename [r]]) k
      = oldRes acc k ++ (if keyOfResult r == k then [r] else []) := by
  induction acc with
  | nil =>
    show oldRes [DocGroup.mk r.document_id r.filename [r]] k = _
    unfold oldRes
    have hkey : keyOf (DocGroup.mk r.document_id r.filename [r]) = keyOfResult r := rfl
    rw [hkey]
    by_cases hrk : (keyOfResult r == k) = true
    · rw [hrk]
      simp
    · rw [Bool.not_eq_true] at hrk
      rw [hrk]
      simp only [Bool.false_eq_true, if_false, List.append_nil]
      rfl
  | cons g rest ih =>
    simp only [List.any_cons, Bool.or_eq_false_iff] at hany
    rw [List.cons_append]
    unfold oldRes
    by_cases hk : (keyOf g == k) = true
    · rw [hk]
      simp only [if_true]
      have hrk : (keyOfResult r == k) = false := by
        rw [beq_eq_false_iff_ne]
        intro hh
        have h1 := hany.1
        rw [beq_eq_false_iff_ne] at h1
        rw [beq_iff_eq] at hk
        exact h1 (hk.trans hh.symm)
      rw [hrk]
      simp
    · rw [Bool.not_eq_true] at hk
      rw [hk]
      simp only [Bool.false_eq_true, if_false]
      exact ih hany.2

theorem oldRes_insertGrouped (acc : List DocGroup) (r : SearchResult)
    (k : String) :
    oldRes (insertGrouped acc r) k
      = oldRes acc k ++ (if keyOfResult r == k then [r] else []) := by
  unfold insertGrouped
  by_cases hany : acc.any (fun g => keyOf g == keyOfResult r) = true
  · rw [if_pos hany]
    by_cases hrk : (keyOfResult r == k) = true
    · rw [hrk]
      simp only [if_true]
      exact oldRes_map_pushResult_self r k acc hrk hany
    · rw [Bool.not_eq_true] at hrk
      rw [hrk]
      simp only [Bool.false_eq_true, if_false, List.append_nil]
      exact oldRes_map_pushResult_other r k acc hrk
  · rw [Bool.not_eq_true] at hany
    rw [if_neg (by rw [hany]; exact Bool.false_ne_true)]
    exact oldRes_append_new r k acc hany

theorem foldl_insertGrouped_results (rs : List SearchResult) :
    ∀ acc, nodupKeys acc →
      nodupKeys (rs.foldl insertGrouped acc) ∧
      ∀ g ∈ rs.foldl insertGrouped acc,
        g.results = oldRes acc (keyOf g)
          ++ rs.filter (fun r => keyOfResult r == keyOf g) := by
  induction rs with
  | nil =>
    intro acc hnd
    refine ⟨hnd, ?_⟩
    intro g hg
    rw [List.filter_nil, List.append_nil, oldRes_of_mem acc g hnd hg]
  | cons r rs ih =>
    intro acc hnd
    rw [List.foldl_cons]
    obtain ⟨hnd2, hres⟩ := ih (insertGrouped acc r)
      (nodupKeys_insertGrouped acc r hnd)
    refine ⟨hnd2, ?_⟩
    intro g hg
    rw [hres g hg, oldRes_insertGrouped acc r (keyOf g), List.filter_cons]
    by_cases hrk : (keyOfResult r == keyOf g) = true
    · rw [hrk]
      simp
    · rw [Bool.not_eq_true] at hrk
      rw [hrk]
      simp

/-- Each group of the grouped output collects, in order, exactly the
results of the flat list that carry its key. -/
theorem groupedResults_filter (rs : List SearchResult) :
    ∀ g ∈ groupedResults rs,
      g.results = rs.filter (fun r => keyOfResult r == keyOf g) := by
  intro g hg
  have h := (foldl_insertGrouped_results rs [] (by simp [nodupKeys])).2 g hg
  rw [h]
  rfl

/-- C6: the client-side grouping by document preserves per-document
ordering by page number within equal scores.  If the flat ranked list is
such that any two results of the same document (same document_id and
filename) with equal score occur in non-decreasing page_no order, then in
every document group of the grouped output any two results with equal
score occur in non-decreasing page_no order. -/
theorem C6_grouping_preserves_page_order (rs : List SearchResult)
    (h : rs.Pairwise (fun a b => a.document_id = b.document_id →
      a.filename = b.filename → a.score = b.score → a.page_no ≤ b.page_no)) :
    ∀ g ∈ groupedResults rs,
      g.results.Pairwise (fun a b => a.score = b.score → a.page_no ≤ b.page_no) := by
  intro g hg
  rw [groupedResults_filter rs g hg]
  have hfil : (rs.filter (fun r => keyOfResult r == keyOf g)).Pairwise
      (fun a b => a.document_id = b.document_id →
        a.filename = b.filename → a.score = b.score → a.page_no ≤ b.page_no) :=
    h.sublist (List.filter_sublist rs)
  refine hfil.imp_of_mem ?_
  intro a b ha hb hab
  have hka := (List.mem_filter.mp ha).2
  have hkb := (List.mem_filter.mp hb).2
  rw [beq_iff_eq] at hka hkb
  have hkey : groupKey a.document_id a.filename = groupKey b.document_id b.filename := by
    show keyOfResult a = keyOfResult b
    rw [hka, hkb]
  have hinj := groupKey_inj hkey
  intro hs
  exact hab hinj.1 hinj.2 hs

theorem C6_grouping_preserves_page_order_witness :
    ([SearchResult.mk 1 "a.pdf" 1 "s1" 5 none,
      SearchResult.mk 2 "b.pdf" 1 "s2" 7 none,
      SearchResult.mk 1 "a.pdf" 2 "s3" 5 none].Pairwise
        (fun a b => a.document_id = b.document_id →
          a.filename = b.filename → a.score = b.score → a.page_no ≤ b.page_no)) ∧
    DocGroup.mk 1 "a.pdf"
        [SearchResult.mk 1 "a.pdf" 1 "s1" 5 none,
         SearchResult.mk 1 "a.pdf" 2 "s3" 5 none]
      ∈ groupedResults
        [SearchResult.mk 1 "a.pdf" 1 "s1" 5 none,
         SearchResult.mk 2 "b.pdf" 1 "s2" 7 none,
         SearchResult.mk 1 "a.pdf" 2 "s3" 5 none] ∧
    (DocGroup.mk 1 "a.pdf"
        [SearchResult.mk 1 "a.pdf" 1 "s1" 5 none,
         SearchResult.mk 1 "a.pdf" 2 "s3" 5 none]).results.Pairwise
      (fun a b => a.score = b.score → a.page_no ≤ b.page_no) := by
  refine ⟨by decide, by decide, ?_⟩
  exact C6_grouping_preserves_page_order
    [SearchResult.mk 1 "a.pdf" 1 "s1" 5 none,
     SearchResult.mk 2 "b.pdf" 1 "s2" 7 none,
     SearchResult.mk 1 "a.pdf" 2 "s3" 5 none] (by decide)
    (DocGroup.mk 1 "a.pdf"
      [SearchResult.mk 1 "a.pdf" 1 "s1" 5 none,
       SearchResult.mk 1 "a.pdf" 2 "s3" 5 none]) (by decide)
